import Mathlib

/-!
# Verification of the `ANB_FifoSlab` FIFO slab buffer (Alloc-N-Buffer)

Shallow embedding of `src/fifoslab.c`.  The repository carries two revisions
of the implementation file: the current one (with the `pad_index` parallel
array recording per-item padding, and the item-level API
`push_item` / `peek_item` / `peek_item_iter` / `pop_item`) and an earlier one
that additionally provides the byte-granular API `push` / `peek` / `pop`
(identical state layout minus `pad_index`).  The model below is the union
state: the `pad_index` array is carried everywhere, item-level operations
follow the current revision, and the byte-level operations `peek` / `pop`
follow the revision that defines them (they never consult `pad_index`,
exactly as in the C source).

Modelling conventions:
* `size_t` values are `Nat`; the only place the C code's 64-bit range is
  observable is the growth loop's overflow assertion, where `SIZE_MAX`
  appears explicitly.  All other arithmetic in the source stays far below
  `SIZE_MAX` whenever the growth assertion has not fired, so plain `Nat`
  arithmetic coincides with `size_t` arithmetic there.
* The data bytes themselves are not modelled: every claim under scrutiny is
  about lengths, offsets and cursor positions, and the C functions return
  `data + offset` pointers, which we model as the `Nat` offset.
* The `index` / `pad_index` arrays are modelled by their written prefix
  (entries `[0, index_write)`): a push appends, the in-place update of
  `index[index_read]` in `pop` is a `List.set`, and the cursor reset
  (which makes every stored entry dead) truncates the modelled prefix.
* `assert` failures (the fatal error tier: allocation overflow) are modelled
  as `none`; peeks that return `NULL` are `none` of an `Option` result.
-/

namespace ANB

/-- `_Alignof(max_align_t)`: the fixed power-of-two alignment unit used by
`ANB_FS_ALIGN_UP` (16 bytes on the x86-64 targets the repository builds for). -/
def maxAlign : Nat := 16

/-- `SIZE_MAX`, the largest `size_t` value (64-bit targets). -/
def SIZE_MAX : Nat := 2 ^ 64 - 1

/-- `ANB_FS_ALIGN_UP(x) = ((x) + _Alignof(max_align_t) - 1) & ~(_Alignof(max_align_t) - 1)`.
For the power-of-two unit `maxAlign` the C bitmask computes exactly
rounding up to the next multiple of `maxAlign`, which is how we state it
over `Nat`. -/
def ANB_FS_ALIGN_UP (x : Nat) : Nat := (x + maxAlign - 1) / maxAlign * maxAlign

/-- `struct ANB_FifoSlab`.  `data` is not modelled (see header comment);
`index` and `pad_index` are modelled by their written prefix of length
`index_write`. -/
structure Queue where
  write_pos : Nat
  read_pos : Nat
  size : Nat
  index : List Nat
  pad_index : List Nat
  index_write : Nat
  index_read : Nat
  index_cap : Nat
deriving Repr, DecidableEq

/-- `ANB_FS_INITIAL_INDEX_CAP`. -/
def initialIndexCap : Nat := 64

/-- `ANB_fifoslab_create` (the `assert(initial_size > 0)` precondition is
carried as a hypothesis by the reachability relation). -/
def ANB_fifoslab_create (initial_size : Nat) : Queue :=
  { write_pos := 0, read_pos := 0, size := initial_size,
    index := [], pad_index := [],
    index_write := 0, index_read := 0, index_cap := initialIndexCap }

/-- The capacity-doubling loop of `ANB_fifoslab_push_item` / `ANB_fifoslab_push`:

    size_t new_size = queue->size;
    while (new_size < queue->write_pos + aligned_len) {
      assert(new_size < SIZE_MAX / 2); // Prevent overflow
      new_size *= 2;
    }

embedded step-for-step with explicit fuel.  `none` means the fuel ran out
before the loop decided (the loop would still be running); `some none` means
the overflow assertion fired (the fatal path); `some (some m)` means the
loop exited normally with `new_size = m`. -/
def growLoopF (fuel : Nat) (new_size need : Nat) : Option (Option Nat) :=
  if new_size < need then
    match fuel with
    | 0 => none
    | fuel + 1 =>
      if new_size < SIZE_MAX / 2 then growLoopF fuel (new_size * 2) need
      else some none
  else some (some new_size)

/-- `ANB_fifoslab_push_item`: grows the data buffer if needed (doubling loop),
records the payload at `write_pos` (bytes not modelled), advances
`write_pos` by the aligned length, doubles the index capacity if full, and
appends the `{aligned_len, pad}` entry.  `none` is the fatal overflow path.
The fuel `need` passed to the loop is provably sufficient whenever
`1 ≤ size` (see `growLoopF_total`), so on every well-formed state the fuel
answer `none` is never returned. -/
def ANB_fifoslab_push_item (q : Queue) (data_len : Nat) : Option Queue :=
  let aligned_len := ANB_FS_ALIGN_UP data_len
  let need := q.write_pos + aligned_len
  let grown : Option Nat :=
    if q.size < need then
      match growLoopF need q.size need with
      | none => none
      | some none => none
      | some (some m) => some m
    else some q.size
  match grown with
  | none => none
  | some new_size =>
    let new_cap := if q.index_write ≥ q.index_cap then q.index_cap * 2 else q.index_cap
    some { q with
      size := new_size,
      write_pos := q.write_pos + aligned_len,
      index := q.index ++ [aligned_len],
      pad_index := q.pad_index ++ [aligned_len - data_len],
      index_write := q.index_write + 1,
      index_cap := new_cap }

/-- `ANB_fifoslab_push` of the byte-level revision: identical to
`ANB_fifoslab_push_item` except that that revision's state has no
`pad_index`; in the union model the padding entry is recorded so that the
parallel arrays stay in lock-step. -/
def ANB_fifoslab_push (q : Queue) (data_len : Nat) : Option Queue :=
  ANB_fifoslab_push_item q data_len

/-- `ANB_fifoslab_size` (same function as `ANB_fifoslab_peek_size` of the
byte-level revision): `write_pos - read_pos`. -/
def ANB_fifoslab_size (q : Queue) : Nat := q.write_pos - q.read_pos

/-- `ANB_fifoslab_item_count`: `index_write - index_read`. -/
def ANB_fifoslab_item_count (q : Queue) : Nat := q.index_write - q.index_read

/-- `ANB_fifoslab_peek_item`: `none` models the `NULL` return; a successful
peek returns the pair (byte offset of the returned pointer `data + offset`,
reported `*out_size`).  The C function mutates nothing (on failure it only
writes `*out_size = 0`, an out-parameter of the caller). -/
def ANB_fifoslab_peek_item (q : Queue) (n : Nat) : Option (Nat × Nat) :=
  if n ≥ q.index_write - q.index_read then none
  else
    let offset := q.read_pos + ((q.index.drop q.index_read).take n).sum
    let abs_idx := q.index_read + n
    some (offset, q.index.getD abs_idx 0 - q.pad_index.getD abs_idx 0)

/-- `ANB_FifoSlabIter_t`: `{ size_t _item_idx; size_t _byte_offset; }`. -/
structure Iter where
  item_idx : Nat
  byte_offset : Nat
deriving Repr, DecidableEq

/-- `ANB_fifoslab_peek_item_iter`: on exhaustion returns `NULL` and leaves
the iterator untouched (modelled as `none`); otherwise returns the view
offset, the reported `*out_size`, and the advanced iterator. -/
def ANB_fifoslab_peek_item_iter (q : Queue) (it : Iter) : Option (Nat × Nat × Iter) :=
  let abs_idx := q.index_read + it.item_idx
  if abs_idx ≥ q.index_write then none
  else
    let aligned_size := q.index.getD abs_idx 0
    let out_size := aligned_size - q.pad_index.getD abs_idx 0
    some (q.read_pos + it.byte_offset, out_size,
          ⟨it.item_idx + 1, it.byte_offset + aligned_size⟩)

/-- The cursor reset performed by both pop operations when
`read_pos == write_pos`: all four cursors go to zero.  The C code leaves the
array contents in place but dead; in the written-prefix model the prefix of
length `index_write = 0` is the empty list. -/
def resetQueue (q : Queue) : Queue :=
  { q with read_pos := 0, write_pos := 0, index_read := 0, index_write := 0,
           index := [], pad_index := [] }

/-- `ANB_fifoslab_pop_item`: returns the updated queue and the returned
`size_t` (original item length, or `0` on an empty queue). -/
def ANB_fifoslab_pop_item (q : Queue) : Queue × Nat :=
  if q.index_read ≥ q.index_write then (q, 0)
  else
    let aligned_size := q.index.getD q.index_read 0
    let item_size := aligned_size - q.pad_index.getD q.index_read 0
    let q' := { q with index_read := q.index_read + 1,
                       read_pos := q.read_pos + aligned_size }
    (if q'.read_pos = q'.write_pos then resetQueue q' else q', item_size)

/-- `ANB_fifoslab_peek` (byte-level revision): `NULL` when the queue is
absent (not modelled), the requested length is zero, or fewer than
`requested_len` bytes are live; otherwise the pointer `data + read_pos`,
modelled as the offset `read_pos`. -/
def ANB_fifoslab_peek (q : Queue) (requested_len : Nat) : Option Nat :=
  if requested_len = 0 ∨ requested_len > q.write_pos - q.read_pos then none
  else some q.read_pos

/-- The index-advance loop of `ANB_fifoslab_pop`:

    size_t remaining = requested_len;
    while (remaining > 0 && queue->index_read < queue->index_write) {
        size_t item_size = queue->index[queue->index_read];
        if (remaining >= item_size) {
            remaining -= item_size;
            queue->index_read++;
        } else {
            queue->index[queue->index_read] -= remaining;
            remaining = 0;
        }
    }

returning the final `index_read` and the final `index` array contents. -/
def popIndexLoop (remaining index_read index_write : Nat) (index : List Nat) :
    Nat × List Nat :=
  if _h : 0 < remaining ∧ index_read < index_write then
    let item_size := index.getD index_read 0
    if remaining ≥ item_size then
      popIndexLoop (remaining - item_size) (index_read + 1) index_write index
    else
      (index_read, index.set index_read (item_size - remaining))
  else
    (index_read, index)
termination_by index_write - index_read
decreasing_by omega

/-- `ANB_fifoslab_pop` (byte-level revision): peeks first (so a request of
zero bytes or of more bytes than are live mutates nothing and returns `0`),
then advances `read_pos`, runs the index-advance loop, and resets all
cursors if the buffer is now fully drained.  Returns the updated queue and
the returned byte count. -/
def ANB_fifoslab_pop (q : Queue) (requested_len : Nat) : Queue × Nat :=
  match ANB_fifoslab_peek q requested_len with
  | none => (q, 0)
  | some _ =>
    let read_pos' := q.read_pos + requested_len
    let st := popIndexLoop requested_len q.index_read q.index_write q.index
    let q' := { q with read_pos := read_pos', index_read := st.1, index := st.2 }
    (if q'.read_pos = q'.write_pos then resetQueue q' else q', requested_len)

/-- The live index entries, `index[index_read .. index_write)`: in the
written-prefix model, `index.drop index_read`. -/
def liveEntries (q : Queue) : List Nat := q.index.drop q.index_read

/-- Sum of `aligned_len` over the live index entries. -/
def liveSum (q : Queue) : Nat := (liveEntries q).sum

/-- Well-formedness of a queue state (established for every reachable state
by `WF_of_Reachable`):
* the written prefixes of `index` and `pad_index` have length `index_write`;
* `index_read ≤ index_write` and `read_pos ≤ write_pos`;
* the aggregate invariant: `read_pos + liveSum = write_pos`;
* `write_pos ≤ size` and `1 ≤ size`;
* every live zero-length entry has zero padding (zero-length entries only
  ever arise from zero-length pushes, whose pad is zero). -/
def WF (q : Queue) : Prop :=
  q.index.length = q.index_write ∧
  q.pad_index.length = q.index_write ∧
  q.index_read ≤ q.index_write ∧
  q.read_pos ≤ q.write_pos ∧
  q.read_pos + liveSum q = q.write_pos ∧
  q.write_pos ≤ q.size ∧
  1 ≤ q.size ∧
  (∀ i, i < q.index_write → q.index_read ≤ i →
    q.index.getD i 0 = 0 → q.pad_index.getD i 0 = 0)

instance (q : Queue) : Decidable (WF q) := by
  unfold WF; infer_instance

/-- Reachable queue states: those produced by `create` (with its positive
initial size precondition) and closed under the mutating operations.  The
peeks mutate nothing. -/
inductive Reachable : Queue → Prop where
  | create (n : Nat) (h : 1 ≤ n) : Reachable (ANB_fifoslab_create n)
  | push_item (q q' : Queue) (len : Nat) (hq : Reachable q)
      (h : ANB_fifoslab_push_item q len = some q') : Reachable q'
  | pop_item (q : Queue) (hq : Reachable q) : Reachable (ANB_fifoslab_pop_item q).1
  | pop (q : Queue) (n : Nat) (hq : Reachable q) : Reachable (ANB_fifoslab_pop q n).1

/-- Declarative description of what the `pop` index loop does to the live
entry suffix: entries fully covered by the consumed byte count are dropped
(retired), and an entry the count ends strictly inside is reduced in place;
once the count is exhausted the remaining entries are untouched. -/
def consumeEntries : Nat → List Nat → List Nat
  | 0, es => es
  | _, [] => []
  | n, e :: es => if e ≤ n then consumeEntries (n - e) es else (e - n) :: es

/-- Number of live entries the `pop` index loop retires (advances
`index_read` past). -/
def retireCount : Nat → List Nat → Nat
  | 0, _ => 0
  | _, [] => 0
  | n, e :: es => if e ≤ n then retireCount (n - e) es + 1 else 0

/-- A sequence of `push_item` calls (`none` as soon as one hits the fatal
overflow path). -/
def pushList (q : Queue) : List Nat → Option Queue
  | [] => some q
  | l :: ls =>
    match ANB_fifoslab_push_item q l with
    | none => none
    | some q1 => pushList q1 ls

/-- The iterator state after `k` calls of `ANB_fifoslab_peek_item_iter`
starting from the zero-initialized iterator `{0}` (an exhausted call leaves
the iterator unchanged, as in the C source). -/
def iterRun (q : Queue) : Nat → Iter
  | 0 => ⟨0, 0⟩
  | k + 1 =>
    match ANB_fifoslab_peek_item_iter q (iterRun q k) with
    | none => iterRun q k
    | some r => r.2.2

/-! ## Basic alignment lemmas -/

theorem le_ANB_FS_ALIGN_UP (x : Nat) : x ≤ ANB_FS_ALIGN_UP x := by
  unfold ANB_FS_ALIGN_UP maxAlign
  have h1 := Nat.div_add_mod (x + 15) 16
  have h2 : (x + 15) % 16 < 16 := Nat.mod_lt _ (by omega)
  omega

theorem ANB_FS_ALIGN_UP_zero : ANB_FS_ALIGN_UP 0 = 0 := by decide

theorem ANB_FS_ALIGN_UP_sub_pad (x : Nat) :
    ANB_FS_ALIGN_UP x - (ANB_FS_ALIGN_UP x - x) = x := by
  have := le_ANB_FS_ALIGN_UP x
  omega

theorem ANB_FS_ALIGN_UP_eq_zero {x : Nat} (h : ANB_FS_ALIGN_UP x = 0) : x = 0 := by
  have := le_ANB_FS_ALIGN_UP x
  omega

/-! ## Growth loop characterization -/

/-- A normal exit of the growth loop yields the smallest doubling of the
starting capacity that satisfies the request; in particular the capacity
never shrinks. -/
theorem growLoopF_some (fuel : Nat) :
    ∀ sz need m, growLoopF fuel sz need = some (some m) →
      need ≤ m ∧ sz ≤ m ∧ ∃ k, m = sz * 2 ^ k ∧ ∀ j, j < k → sz * 2 ^ j < need := by
  induction fuel with
  | zero =>
    intro sz need m h
    unfold growLoopF at h
    by_cases hlt : sz < need
    · simp [hlt] at h
    · simp [hlt] at h
      exact ⟨by omega, by omega, 0, by simp [h], by omega⟩
  | succ fuel ih =>
    intro sz need m h
    unfold growLoopF at h
    by_cases hlt : sz < need
    · simp only [hlt, if_true] at h
      by_cases hh : sz < SIZE_MAX / 2
      · simp only [hh, if_true] at h
        obtain ⟨h1, h2, k, hk, hmin⟩ := ih (sz * 2) need m h
        refine ⟨h1, by omega, k + 1, by rw [hk]; ring, ?_⟩
        intro j hj
        match j with
        | 0 => simpa using hlt
        | j + 1 =>
          have := hmin j (by omega)
          calc sz * 2 ^ (j + 1) = sz * 2 * 2 ^ j := by ring
          _ < need := this
      · simp [hh] at h
    · simp [hlt] at h
      exact ⟨by omega, by omega, 0, by simp [h], by omega⟩

/-- The fatal overflow exit fires only when the required capacity exceeds
`SIZE_MAX / 2`, i.e. could never be represented after one more doubling. -/
theorem growLoopF_fatal (fuel : Nat) :
    ∀ sz need, growLoopF fuel sz need = some none → SIZE_MAX / 2 < need := by
  induction fuel with
  | zero =>
    intro sz need h
    unfold growLoopF at h
    by_cases hlt : sz < need <;> simp [hlt] at h
  | succ fuel ih =>
    intro sz need h
    unfold growLoopF at h
    by_cases hlt : sz < need
    · simp only [hlt, if_true] at h
      by_cases hh : sz < SIZE_MAX / 2
      · simp only [hh, if_true] at h
        exact ih _ _ h
      · omega
    · simp [hlt] at h

/-- Termination of the growth loop: starting from a positive capacity, fuel
`need` is always enough for the loop to reach a decision (capacity at least
doubles, hence grows by at least one, every iteration). -/
theorem growLoopF_total (fuel : Nat) :
    ∀ sz need, 1 ≤ sz → need ≤ fuel + sz → growLoopF fuel sz need ≠ none := by
  induction fuel with
  | zero =>
    intro sz need h1 h2
    unfold growLoopF
    have : ¬sz < need := by omega
    simp [this]
  | succ fuel ih =>
    intro sz need h1 h2
    unfold growLoopF
    by_cases hlt : sz < need
    · simp only [hlt, if_true]
      by_cases hh : sz < SIZE_MAX / 2
      · simp only [hh, if_true]
        exact ih (sz * 2) need (by omega) (by omega)
      · simp [hh]
    · simp [hlt]

/-- Once the loop has decided, more fuel does not change the decision. -/
theorem growLoopF_fuel_mono (fuel : Nat) :
    ∀ g sz need r, growLoopF fuel sz need = some r → fuel ≤ g →
      growLoopF g sz need = some r := by
  induction fuel with
  | zero =>
    intro g sz need r h _
    unfold growLoopF at h
    by_cases hlt : sz < need
    · simp [hlt] at h
    · unfold growLoopF
      simp_all
  | succ fuel ih =>
    intro g sz need r h hg
    unfold growLoopF at h
    by_cases hlt : sz < need
    · simp only [hlt, if_true] at h
      match g, hg with
      | g + 1, hg =>
        unfold growLoopF
        simp only [hlt, if_true]
        by_cases hh : sz < SIZE_MAX / 2
        · simp only [hh, if_true] at h ⊢
          exact ih g _ _ _ h (by omega)
        · simp_all
    · unfold growLoopF
      simp_all

/-! ## Effect of `push_item` on the state -/

/-- A successful `push_item` appends one `{aligned_len, pad}` entry, advances
`write_pos` by the aligned length, leaves the read cursors alone, and ends
with enough capacity for the new `write_pos`. -/
theorem push_item_some {q q' : Queue} {data_len : Nat}
    (h : ANB_fifoslab_push_item q data_len = some q') :
    q'.write_pos = q.write_pos + ANB_FS_ALIGN_UP data_len ∧
    q'.read_pos = q.read_pos ∧
    q'.index = q.index ++ [ANB_FS_ALIGN_UP data_len] ∧
    q'.pad_index = q.pad_index ++ [ANB_FS_ALIGN_UP data_len - data_len] ∧
    q'.index_write = q.index_write + 1 ∧
    q'.index_read = q.index_read ∧
    q'.write_pos ≤ q'.size ∧
    q.size ≤ q'.size := by
  unfold ANB_fifoslab_push_item at h
  simp only at h
  by_cases hg : q.size < q.write_pos + ANB_FS_ALIGN_UP data_len
  · simp only [hg, if_true] at h
    rcases hr : growLoopF (q.write_pos + ANB_FS_ALIGN_UP data_len) q.size
        (q.write_pos + ANB_FS_ALIGN_UP data_len) with _ | r
    · rw [hr] at h; simp at h
    · rcases r with _ | m
      · rw [hr] at h; simp at h
      · rw [hr] at h
        simp only [Option.some.injEq] at h
        obtain ⟨hneed, hsz, -⟩ := growLoopF_some _ _ _ _ hr
        subst h
        refine ⟨rfl, rfl, rfl, rfl, rfl, rfl, ?_, ?_⟩ <;> (simp; try omega)
  · simp only [hg, if_false] at h
    simp only [Option.some.injEq] at h
    subst h
    refine ⟨rfl, rfl, rfl, rfl, rfl, rfl, ?_, ?_⟩ <;> (simp; try omega)

/-- `push_item` can only fail through the fatal overflow assertion, i.e. when
the required capacity exceeds `SIZE_MAX / 2`; on a well-formed state the
growth loop never runs out of fuel. -/
theorem push_item_none {q : Queue} {data_len : Nat} (hwf : WF q)
    (h : ANB_fifoslab_push_item q data_len = none) :
    SIZE_MAX / 2 < q.write_pos + ANB_FS_ALIGN_UP data_len := by
  obtain ⟨-, -, -, -, -, -, hsz, -⟩ := hwf
  unfold ANB_fifoslab_push_item at h
  simp only at h
  by_cases hg : q.size < q.write_pos + ANB_FS_ALIGN_UP data_len
  · simp only [hg, if_true] at h
    rcases hr : growLoopF (q.write_pos + ANB_FS_ALIGN_UP data_len) q.size
        (q.write_pos + ANB_FS_ALIGN_UP data_len) with _ | r
    · exact absurd hr (growLoopF_total _ _ _ hsz (by omega))
    · rcases r with _ | m
      · exact growLoopF_fatal _ _ _ hr
      · rw [hr] at h; simp at h
  · simp [hg] at h

/-! ## Well-formedness preservation -/

theorem WF_create {n : Nat} (h : 1 ≤ n) : WF (ANB_fifoslab_create n) := by
  unfold WF ANB_fifoslab_create liveSum liveEntries
  refine ⟨rfl, rfl, le_refl _, le_refl _, rfl, by simp, h, ?_⟩
  intro i hi
  simp at hi

theorem WF_push_item {q q' : Queue} {data_len : Nat} (hwf : WF q)
    (h : ANB_fifoslab_push_item q data_len = some q') : WF q' := by
  obtain ⟨hwp, hrp, hidx, hpad, hiw, hir, hcap, hgrow⟩ := push_item_some h
  obtain ⟨hlen, hplen, hirw, hrw, hsum, hws, hsz, hzero⟩ := hwf
  have hliv : liveSum q' = liveSum q + ANB_FS_ALIGN_UP data_len := by
    unfold liveSum liveEntries
    rw [hidx, hir, List.drop_append_of_le_length (by omega), List.sum_append]
    simp
  refine ⟨?_, ?_, ?_, ?_, ?_, ?_, ?_, ?_⟩
  · rw [hidx, hiw]; simp [hlen]
  · rw [hpad, hiw]; simp [hplen]
  · omega
  · omega
  · rw [hliv]; omega
  · exact hcap
  · omega
  · intro i hi1 hi2 hzi
    rw [hpad]
    rw [hidx] at hzi
    rw [hiw] at hi1
    rw [hir] at hi2
    by_cases hio : i < q.index.length
    · rw [List.getD_append _ _ _ _ hio] at hzi
      rw [List.getD_append _ _ _ _ (by omega)]
      exact hzero i (by omega) hi2 hzi
    · have hieq : i = q.index.length := by omega
      rw [hieq, List.getD_append_right _ _ _ _ (le_refl _)] at hzi
      simp at hzi
      rw [hieq, hlen, ← hplen, List.getD_append_right _ _ _ _ (le_refl _)]
      simp
      have := ANB_FS_ALIGN_UP_eq_zero hzi
      omega

/-! ## The pop index loop -/

theorem consumeEntries_zero (es : List Nat) : consumeEntries 0 es = es := by
  cases es <;> rfl

theorem consumeEntries_nil (n : Nat) : consumeEntries n [] = [] := by
  cases n <;> rfl

theorem consumeEntries_cons {n : Nat} (e : Nat) (es : List Nat) (h : 0 < n) :
    consumeEntries n (e :: es) =
      if e ≤ n then consumeEntries (n - e) es else (e - n) :: es := by
  match n, h with
  | n + 1, _ => rfl

theorem retireCount_zero (es : List Nat) : retireCount 0 es = 0 := by
  cases es <;> rfl

theorem retireCount_nil (n : Nat) : retireCount n [] = 0 := by
  cases n <;> rfl

theorem retireCount_cons {n : Nat} (e : Nat) (es : List Nat) (h : 0 < n) :
    retireCount n (e :: es) =
      if e ≤ n then retireCount (n - e) es + 1 else 0 := by
  match n, h with
  | n + 1, _ => rfl

theorem consumeEntries_sum : ∀ (n : Nat) (es : List Nat), n ≤ es.sum →
    (consumeEntries n es).sum + n = es.sum := by
  intro n es
  induction es generalizing n with
  | nil =>
    intro h
    simp at h
    subst h
    simp [consumeEntries_nil]
  | cons e es ih =>
    intro h
    rcases Nat.eq_zero_or_pos n with hn | hn
    · subst hn
      simp [consumeEntries_zero]
    · rw [consumeEntries_cons e es hn]
      by_cases he : e ≤ n
      · simp only [he, if_true]
        have := ih (n - e) (by simp at h; omega)
        simp only [List.sum_cons]
        omega
      · simp only [he, if_false]
        simp
        omega

theorem retireCount_le : ∀ (n : Nat) (es : List Nat), retireCount n es ≤ es.length := by
  intro n es
  induction es generalizing n with
  | nil => simp [retireCount_nil]
  | cons e es ih =>
    rcases Nat.eq_zero_or_pos n with hn | hn
    · subst hn
      simp [retireCount_zero]
    · rw [retireCount_cons e es hn]
      by_cases he : e ≤ n
      · simp only [he, if_true, List.length_cons]
        have := ih (n - e)
        omega
      · simp [he]

theorem consumeEntries_length : ∀ (n : Nat) (es : List Nat),
    (consumeEntries n es).length = es.length - retireCount n es := by
  intro n es
  induction es generalizing n with
  | nil => simp [consumeEntries_nil, retireCount_nil]
  | cons e es ih =>
    rcases Nat.eq_zero_or_pos n with hn | hn
    · subst hn
      simp [consumeEntries_zero, retireCount_zero]
    · rw [consumeEntries_cons e es hn, retireCount_cons e es hn]
      by_cases he : e ≤ n
      · simp only [he, if_true, List.length_cons]
        have h1 := retireCount_le (n - e) es
        rw [ih]
        omega
      · simp [he]

/-- Full characterization of the `ANB_fifoslab_pop` index loop: `index_read`
advances past exactly the retired entries (never backwards, never past
`index_write`), the array keeps its length, the live suffix becomes
`consumeEntries`, and no new zero entries appear. -/
theorem popIndexLoop_spec :
    ∀ (r ir iw : Nat) (idx : List Nat), idx.length = iw → ir ≤ iw →
    ir ≤ (popIndexLoop r ir iw idx).1 ∧
    (popIndexLoop r ir iw idx).1 ≤ iw ∧
    (popIndexLoop r ir iw idx).2.length = iw ∧
    (popIndexLoop r ir iw idx).2.drop (popIndexLoop r ir iw idx).1 =
      consumeEntries r (idx.drop ir) ∧
    (popIndexLoop r ir iw idx).1 = ir + retireCount r (idx.drop ir) ∧
    (∀ i, (popIndexLoop r ir iw idx).2.getD i 0 = 0 → idx.getD i 0 = 0) := by
  intro r ir iw idx
  induction r, ir, iw, idx using popIndexLoop.induct with
  | case1 r ir iw idx h item hge ih =>
    intro hlen hir
    have hlt : ir < idx.length := by omega
    have hdrop : idx.drop ir = idx[ir] :: idx.drop (ir + 1) :=
      List.drop_eq_getElem_cons hlt
    have hitem : item = idx[ir] := List.getD_eq_getElem idx 0 hlt
    have heq : popIndexLoop r ir iw idx = popIndexLoop (r - item) (ir + 1) iw idx := by
      rw [popIndexLoop]
      rw [dif_pos h, if_pos hge]
    obtain ⟨i1, i2, i3, i4, i5, i6⟩ := ih hlen (by omega)
    have hcons : consumeEntries r (idx.drop ir) =
        consumeEntries (r - item) (idx.drop (ir + 1)) := by
      rw [hdrop, consumeEntries_cons _ _ h.1, ← hitem, if_pos hge]
    have hret : retireCount r (idx.drop ir) =
        retireCount (r - item) (idx.drop (ir + 1)) + 1 := by
      rw [hdrop, retireCount_cons _ _ h.1, ← hitem, if_pos hge]
    rw [heq]
    refine ⟨by omega, i2, i3, by rw [hcons]; exact i4, by rw [hret]; omega, i6⟩
  | case2 r ir iw idx h item hge =>
    intro hlen hir
    have hlt : ir < idx.length := by omega
    have hitem : item = idx[ir] := List.getD_eq_getElem idx 0 hlt
    have hrlt : r < item := by omega
    have heq : popIndexLoop r ir iw idx = (ir, idx.set ir (item - r)) := by
      rw [popIndexLoop]
      rw [dif_pos h, if_neg hge]
    have hdrop : idx.drop ir = idx[ir] :: idx.drop (ir + 1) :=
      List.drop_eq_getElem_cons hlt
    have hsetdrop : (idx.set ir (item - r)).drop ir = (item - r) :: idx.drop (ir + 1) := by
      rw [List.drop_eq_getElem_cons (by simpa using hlt), List.getElem_set_self]
      simp [List.drop_set_of_lt]
    rw [heq]
    refine ⟨le_refl _, by omega, by simp [hlen], ?_, ?_, ?_⟩
    · rw [hsetdrop, hdrop, consumeEntries_cons _ _ h.1, ← hitem, if_neg (by omega)]
    · rw [hdrop, retireCount_cons _ _ h.1, ← hitem, if_neg (by omega)]
      simp
    · intro i hzi
      by_cases hii : i = ir
      · subst hii
        rw [List.getD_eq_getElem _ 0 (by simpa using hlt), List.getElem_set_self] at hzi
        omega
      · rw [List.getD_eq_getElem?_getD, List.getElem?_set_ne (Ne.symm hii)] at hzi
        rwa [List.getD_eq_getElem?_getD]
  | case3 r ir iw idx h =>
    intro hlen hir
    have heq : popIndexLoop r ir iw idx = (ir, idx) := by
      rw [popIndexLoop]
      rw [dif_neg h]
    have hchar : consumeEntries r (idx.drop ir) = idx.drop ir ∧
        retireCount r (idx.drop ir) = 0 := by
      rcases Nat.eq_zero_or_pos r with hr | hr
      · subst hr
        exact ⟨consumeEntries_zero _, retireCount_zero _⟩
      · have hgeiw : iw ≤ ir := by omega
        have hnil : idx.drop ir = [] := List.drop_eq_nil_of_le (by omega)
        rw [hnil]
        exact ⟨consumeEntries_nil _, retireCount_nil _⟩
    rw [heq]
    exact ⟨le_refl _, hir, hlen, hchar.1.symm, by rw [hchar.2]; simp, fun i hi => hi⟩

/-! ## Well-formedness preservation by the pops -/

/-- On a non-empty queue the front live entry splits off the live suffix. -/
theorem liveEntries_cons {q : Queue} (hlen : q.index.length = q.index_write)
    (hne : q.index_read < q.index_write) :
    liveEntries q = q.index.getD q.index_read 0 :: q.index.drop (q.index_read + 1) := by
  unfold liveEntries
  have hlt : q.index_read < q.index.length := by omega
  rw [List.drop_eq_getElem_cons hlt, List.getD_eq_getElem _ 0 hlt]

theorem WF_resetQueue {q : Queue} (hsz : 1 ≤ q.size) : WF (resetQueue q) := by
  unfold resetQueue WF liveSum liveEntries
  refine ⟨rfl, rfl, le_refl _, le_refl _, rfl, by simp, hsz, ?_⟩
  intro i hi
  simp at hi

theorem WF_pop_item {q : Queue} (hwf : WF q) : WF (ANB_fifoslab_pop_item q).1 := by
  unfold ANB_fifoslab_pop_item
  by_cases hempty : q.index_read ≥ q.index_write
  · simpa [hempty] using hwf
  · simp only [hempty, if_false]
    obtain ⟨hlen, hplen, hirw, hrw, hsum, hws, hsz, hzero⟩ := hwf
    have hne : q.index_read < q.index_write := by omega
    have hsplit := liveEntries_cons hlen hne
    have hsum' : q.read_pos + q.index.getD q.index_read 0 +
        (q.index.drop (q.index_read + 1)).sum = q.write_pos := by
      unfold liveSum at hsum
      rw [hsplit] at hsum
      simp only [List.sum_cons] at hsum
      omega
    dsimp only
    by_cases hdrain :
        q.read_pos + q.index.getD q.index_read 0 = q.write_pos
    · rw [if_pos hdrain]
      exact WF_resetQueue hsz
    · rw [if_neg hdrain]
      refine ⟨hlen, hplen, by dsimp only; omega, by dsimp only; omega, ?_,
        by dsimp only; omega, hsz, ?_⟩
      · unfold liveSum liveEntries
        dsimp only
        omega
      · intro i hi1 hi2 hzi
        dsimp only at hi1 hi2 hzi ⊢
        exact hzero i hi1 (by omega) hzi

theorem WF_pop {q : Queue} (n : Nat) (hwf : WF q) : WF (ANB_fifoslab_pop q n).1 := by
  unfold ANB_fifoslab_pop ANB_fifoslab_peek
  by_cases hfail : n = 0 ∨ n > q.write_pos - q.read_pos
  · simpa [hfail] using hwf
  · simp only [hfail, if_false]
    obtain ⟨hlen, hplen, hirw, hrw, hsum, hws, hsz, hzero⟩ := hwf
    push_neg at hfail
    obtain ⟨hn0, hnle⟩ := hfail
    obtain ⟨l1, l2, l3, l4, l5, l6⟩ :=
      popIndexLoop_spec n q.index_read q.index_write q.index hlen hirw
    have hsumle : n ≤ liveSum q := by omega
    have hsum3 :
        ((popIndexLoop n q.index_read q.index_write q.index).2.drop
          (popIndexLoop n q.index_read q.index_write q.index).1).sum + n = liveSum q := by
      rw [l4]
      exact consumeEntries_sum n (liveEntries q) hsumle
    dsimp only
    by_cases hdrain : q.read_pos + n = q.write_pos
    · rw [if_pos hdrain]
      exact WF_resetQueue hsz
    · rw [if_neg hdrain]
      refine ⟨l3, hplen, l2, by dsimp only; omega, ?_,
        by dsimp only; omega, hsz, ?_⟩
      · unfold liveSum liveEntries
        dsimp only
        omega
      · intro i hi1 hi2 hzi
        dsimp only at hi1 hi2 hzi ⊢
        exact hzero i hi1 (by omega) (l6 i hzi)

/-! ## Step characterizations of the two pops -/

/-- `pop_item` on a non-empty queue: retire the front entry, then reset if
fully drained. -/
theorem pop_item_nonempty {q : Queue} (hne : q.index_read < q.index_write) :
    ANB_fifoslab_pop_item q =
      (if q.read_pos + q.index.getD q.index_read 0 = q.write_pos then
         resetQueue { q with index_read := q.index_read + 1,
                             read_pos := q.read_pos + q.index.getD q.index_read 0 }
       else { q with index_read := q.index_read + 1,
                     read_pos := q.read_pos + q.index.getD q.index_read 0 },
       q.index.getD q.index_read 0 - q.pad_index.getD q.index_read 0) := by
  unfold ANB_fifoslab_pop_item
  rw [if_neg (by omega : ¬q.index_read ≥ q.index_write)]

/-- `pop_item` on an empty queue does nothing and returns `0`. -/
theorem pop_item_empty {q : Queue} (hemp : q.index_write ≤ q.index_read) :
    ANB_fifoslab_pop_item q = (q, 0) := by
  unfold ANB_fifoslab_pop_item
  rw [if_pos (by omega : q.index_read ≥ q.index_write)]

/-- `pop` with a satisfiable positive request: advance `read_pos`, run the
index loop, then reset if fully drained. -/
theorem pop_valid {q : Queue} {n : Nat} (h0 : 0 < n)
    (hle : n ≤ q.write_pos - q.read_pos) :
    ANB_fifoslab_pop q n =
      (if q.read_pos + n = q.write_pos then
         resetQueue { q with
                      read_pos := q.read_pos + n,
                      index_read := (popIndexLoop n q.index_read q.index_write q.index).1,
                      index := (popIndexLoop n q.index_read q.index_write q.index).2 }
       else { q with
              read_pos := q.read_pos + n,
              index_read := (popIndexLoop n q.index_read q.index_write q.index).1,
              index := (popIndexLoop n q.index_read q.index_write q.index).2 },
       n) := by
  unfold ANB_fifoslab_pop ANB_fifoslab_peek
  rw [if_neg (by omega : ¬(n = 0 ∨ n > q.write_pos - q.read_pos))]

/-- `pop` with a zero or unsatisfiable request does nothing and returns `0`. -/
theorem pop_invalid {q : Queue} {n : Nat}
    (h : n = 0 ∨ n > q.write_pos - q.read_pos) :
    ANB_fifoslab_pop q n = (q, 0) := by
  unfold ANB_fifoslab_pop ANB_fifoslab_peek
  rw [if_pos h]

/-- Every reachable queue state is well-formed. -/
theorem WF_of_Reachable {q : Queue} (h : Reachable q) : WF q := by
  induction h with
  | create n hn => exact WF_create hn
  | push_item q q' len hq hp ih => exact WF_push_item ih hp
  | pop_item q hq ih => exact WF_pop_item ih
  | pop q n hq ih => exact WF_pop n ih

/-! ## Claim theorems -/

/-- C2: for every reachable queue state, the sum of `aligned_len` over the
live index entries (those in `[index_read, index_write)`) equals
`write_pos − read_pos`, and this equality is preserved by every operation:
`push`/`push_item`, `pop_item`, and byte-level `pop` (including a pop that
reduces a partially-covered entry in place).  (`read_pos + liveSum =
write_pos` is the subtraction-free form of the equality; preservation by the
individual operations is stated for every well-formed starting state.) -/
theorem live_aligned_sum_invariant :
    (∀ q : Queue, Reachable q → q.read_pos + liveSum q = q.write_pos) ∧
    (∀ (q q1 : Queue) (len : Nat), WF q → ANB_fifoslab_push_item q len = some q1 →
        q1.read_pos + liveSum q1 = q1.write_pos) ∧
    (∀ q : Queue, WF q →
        (ANB_fifoslab_pop_item q).1.read_pos + liveSum (ANB_fifoslab_pop_item q).1 =
          (ANB_fifoslab_pop_item q).1.write_pos) ∧
    (∀ (q : Queue) (n : Nat), WF q →
        (ANB_fifoslab_pop q n).1.read_pos + liveSum (ANB_fifoslab_pop q n).1 =
          (ANB_fifoslab_pop q n).1.write_pos) := by
  refine ⟨?_, ?_, ?_, ?_⟩
  · intro q hq
    exact (WF_of_Reachable hq).2.2.2.2.1
  · intro q q1 len hwf hp
    exact (WF_push_item hwf hp).2.2.2.2.1
  · intro q hwf
    exact (WF_pop_item hwf).2.2.2.2.1
  · intro q n hwf
    exact (WF_pop n hwf).2.2.2.2.1

theorem live_aligned_sum_invariant_witness :
    (ANB_fifoslab_create 64).read_pos + liveSum (ANB_fifoslab_create 64) =
      (ANB_fifoslab_create 64).write_pos :=
  live_aligned_sum_invariant.1 _ (Reachable.create 64 (by decide))

/-- C6: `peek_item q n` returns "not found" (`NULL`, modelled `none`)
exactly when `n ≥ index_write − index_read = item_count`; in particular the
boundary index `item_count` (one past the last live item) always reports not
found.  The C function mutates no queue state (it is modelled as a pure
function; on failure it only writes the caller's out-parameter). -/
theorem peek_item_out_of_range (q : Queue) (n : Nat) (hwf : WF q) :
    (ANB_fifoslab_peek_item q n = none ↔ ANB_fifoslab_item_count q ≤ n) ∧
    ANB_fifoslab_peek_item q (ANB_fifoslab_item_count q) = none := by
  obtain ⟨-, -, hirw, -, -, -, -, -⟩ := hwf
  unfold ANB_fifoslab_peek_item ANB_fifoslab_item_count
  constructor
  · by_cases h : n ≥ q.index_write - q.index_read
    · rw [if_pos h]
      simp [h]
    · rw [if_neg h]
      simp
      omega
  · rw [if_pos (le_refl _)]

theorem peek_item_out_of_range_witness :
    (ANB_fifoslab_peek_item (ANB_fifoslab_create 64) 0 = none ↔
      ANB_fifoslab_item_count (ANB_fifoslab_create 64) ≤ 0) ∧
    ANB_fifoslab_peek_item (ANB_fifoslab_create 64)
      (ANB_fifoslab_item_count (ANB_fifoslab_create 64)) = none :=
  peek_item_out_of_range (ANB_fifoslab_create 64) 0 (by decide)

/-- C8: pushing a zero-length item never errors on a well-formed queue: it
succeeds (no growth is even attempted since `ALIGN_UP(0) = 0`), increments
`item_count` by one, and its footprint in the data store is
`round_up(0, alignment_unit) = 0` bytes. -/
theorem push_zero_length_succeeds (q : Queue) (hwf : WF q) :
    ∃ q1, ANB_fifoslab_push_item q 0 = some q1 ∧
      ANB_fifoslab_item_count q1 = ANB_fifoslab_item_count q + 1 ∧
      q1.write_pos = q.write_pos + ANB_FS_ALIGN_UP 0 ∧
      ANB_FS_ALIGN_UP 0 = 0 := by
  obtain ⟨-, -, hirw, -, -, hws, -, -⟩ := hwf
  have ha : ANB_FS_ALIGN_UP 0 = 0 := by decide
  unfold ANB_fifoslab_push_item
  rw [ha]
  dsimp only
  rw [if_neg (by omega : ¬q.size < q.write_pos + 0)]
  refine ⟨_, rfl, ?_, by dsimp, ha⟩
  unfold ANB_fifoslab_item_count
  dsimp only
  omega

theorem push_zero_length_succeeds_witness :
    ∃ q1, ANB_fifoslab_push_item (ANB_fifoslab_create 64) 0 = some q1 ∧
      ANB_fifoslab_item_count q1 = ANB_fifoslab_item_count (ANB_fifoslab_create 64) + 1 ∧
      q1.write_pos = (ANB_fifoslab_create 64).write_pos + ANB_FS_ALIGN_UP 0 ∧
      ANB_FS_ALIGN_UP 0 = 0 :=
  push_zero_length_succeeds (ANB_fifoslab_create 64) (by decide)

/-- C9: the capacity-doubling growth loop, started from any positive
capacity (every reachable queue has `1 ≤ size`), always reaches a decision
in finitely many iterations (and keeps it with any more fuel, i.e. it never
loops forever): either a normal exit at the smallest doubling
`new_size * 2 ^ k` of the starting capacity that satisfies the request —
which in particular never shrinks the capacity — or the fatal overflow exit,
which can fire only when the required capacity exceeds `SIZE_MAX / 2`. -/
theorem growth_loop_terminates (new_size need : Nat) (h : 1 ≤ new_size) :
    ∃ fuel r, growLoopF fuel new_size need = some r ∧
      (∀ g, fuel ≤ g → growLoopF g new_size need = some r) ∧
      ((∃ m, r = some m ∧ need ≤ m ∧ new_size ≤ m ∧
          ∃ k, m = new_size * 2 ^ k ∧ ∀ j, j < k → new_size * 2 ^ j < need) ∨
        (r = none ∧ SIZE_MAX / 2 < need)) := by
  have htot := growLoopF_total need new_size need h (by omega)
  rcases hr : growLoopF need new_size need with _ | r
  · exact absurd hr htot
  · refine ⟨need, r, hr, fun g hg => growLoopF_fuel_mono need g new_size need r hr hg, ?_⟩
    rcases r with _ | m
    · exact Or.inr ⟨rfl, growLoopF_fatal need new_size need hr⟩
    · obtain ⟨h1, h2, k, hk, hmin⟩ := growLoopF_some need new_size need m hr
      exact Or.inl ⟨m, rfl, h1, h2, k, hk, hmin⟩

theorem growth_loop_terminates_witness :
    ∃ fuel r, growLoopF fuel 64 1000 = some r ∧
      (∀ g, fuel ≤ g → growLoopF g 64 1000 = some r) ∧
      ((∃ m, r = some m ∧ 1000 ≤ m ∧ 64 ≤ m ∧
          ∃ k, m = 64 * 2 ^ k ∧ ∀ j, j < k → 64 * 2 ^ j < 1000) ∨
        (r = none ∧ SIZE_MAX / 2 < 1000)) :=
  growth_loop_terminates 64 1000 (by decide)

/-- C4: whenever a `pop_item` or a byte-level `pop` consumes the last live
bytes (making `read_pos` equal to `write_pos`), all four cursors —
`read_pos`, `write_pos`, `index_read`, `index_write` — are reset to `0`;
and while data remains live after an operation, no operation (`push_item`,
`pop_item`, `pop`) moves any of the four cursors backwards (no partial
compaction). -/
theorem drain_reset_and_cursor_monotonicity :
    (∀ q : Queue, q.index_read < q.index_write →
        q.read_pos + q.index.getD q.index_read 0 = q.write_pos →
        (ANB_fifoslab_pop_item q).1.read_pos = 0 ∧
        (ANB_fifoslab_pop_item q).1.write_pos = 0 ∧
        (ANB_fifoslab_pop_item q).1.index_read = 0 ∧
        (ANB_fifoslab_pop_item q).1.index_write = 0) ∧
    (∀ (q : Queue) (n : Nat), 0 < n → n ≤ q.write_pos - q.read_pos →
        q.read_pos + n = q.write_pos →
        (ANB_fifoslab_pop q n).1.read_pos = 0 ∧
        (ANB_fifoslab_pop q n).1.write_pos = 0 ∧
        (ANB_fifoslab_pop q n).1.index_read = 0 ∧
        (ANB_fifoslab_pop q n).1.index_write = 0) ∧
    (∀ (q q1 : Queue) (len : Nat), ANB_fifoslab_push_item q len = some q1 →
        q1.read_pos ≠ q1.write_pos →
        q.read_pos ≤ q1.read_pos ∧ q.write_pos ≤ q1.write_pos ∧
        q.index_read ≤ q1.index_read ∧ q.index_write ≤ q1.index_write) ∧
    (∀ q : Queue,
        (ANB_fifoslab_pop_item q).1.read_pos ≠ (ANB_fifoslab_pop_item q).1.write_pos →
        q.read_pos ≤ (ANB_fifoslab_pop_item q).1.read_pos ∧
        q.write_pos ≤ (ANB_fifoslab_pop_item q).1.write_pos ∧
        q.index_read ≤ (ANB_fifoslab_pop_item q).1.index_read ∧
        q.index_write ≤ (ANB_fifoslab_pop_item q).1.index_write) ∧
    (∀ (q : Queue) (n : Nat), WF q →
        (ANB_fifoslab_pop q n).1.read_pos ≠ (ANB_fifoslab_pop q n).1.write_pos →
        q.read_pos ≤ (ANB_fifoslab_pop q n).1.read_pos ∧
        q.write_pos ≤ (ANB_fifoslab_pop q n).1.write_pos ∧
        q.index_read ≤ (ANB_fifoslab_pop q n).1.index_read ∧
        q.index_write ≤ (ANB_fifoslab_pop q n).1.index_write) := by
  refine ⟨?_, ?_, ?_, ?_, ?_⟩
  · intro q hne hdrain
    rw [pop_item_nonempty hne]
    rw [if_pos hdrain]
    simp [resetQueue]
  · intro q n h0 hle hdrain
    rw [pop_valid h0 hle]
    rw [if_pos hdrain]
    simp [resetQueue]
  · intro q q1 len hp hlive
    obtain ⟨hwp, hrp, -, -, hiw, hir, -, -⟩ := push_item_some hp
    omega
  · intro q hlive
    by_cases hemp : q.index_write ≤ q.index_read
    · rw [pop_item_empty hemp]
      exact ⟨le_refl _, le_refl _, le_refl _, le_refl _⟩
    · rw [pop_item_nonempty (by omega)] at hlive ⊢
      by_cases hdrain : q.read_pos + q.index.getD q.index_read 0 = q.write_pos
      · rw [if_pos hdrain] at hlive
        simp [resetQueue] at hlive
      · rw [if_neg hdrain] at hlive ⊢
        dsimp only
        omega
  · intro q n hwf hlive
    by_cases hval : n = 0 ∨ n > q.write_pos - q.read_pos
    · rw [pop_invalid hval]
      exact ⟨le_refl _, le_refl _, le_refl _, le_refl _⟩
    · push_neg at hval
      obtain ⟨hlen, hplen, hirw, -, -, -, -, -⟩ := hwf
      obtain ⟨l1, -, -, -, -, -⟩ :=
        popIndexLoop_spec n q.index_read q.index_write q.index hlen hirw
      rw [pop_valid (by omega) hval.2] at hlive ⊢
      by_cases hdrain : q.read_pos + n = q.write_pos
      · rw [if_pos hdrain] at hlive
        simp [resetQueue] at hlive
      · rw [if_neg hdrain] at hlive ⊢
        dsimp only
        omega

theorem drain_reset_and_cursor_monotonicity_witness :
    (ANB_fifoslab_pop_item ⟨16, 0, 64, [16], [11], 1, 0, 64⟩).1.read_pos = 0 ∧
    (ANB_fifoslab_pop_item ⟨16, 0, 64, [16], [11], 1, 0, 64⟩).1.write_pos = 0 ∧
    (ANB_fifoslab_pop_item ⟨16, 0, 64, [16], [11], 1, 0, 64⟩).1.index_read = 0 ∧
    (ANB_fifoslab_pop_item ⟨16, 0, 64, [16], [11], 1, 0, 64⟩).1.index_write = 0 :=
  drain_reset_and_cursor_monotonicity.1 ⟨16, 0, 64, [16], [11], 1, 0, 64⟩
    (by decide) (by decide)

/-- C7: on a queue whose live items all have `aligned_len = 0` (as produced
by zero-length pushes) and whose `item_count` is at least 2, `read_pos`
already equals `write_pos`, so a single `pop_item` returns `0` (the
empty-queue sentinel) and triggers the full cursor reset, setting
`index_read = index_write = 0` and hence `item_count = 0`: the remaining
items are silently discarded rather than remaining poppable. -/
theorem pop_item_zero_length_discards_rest (q : Queue) (hwf : WF q)
    (hz : ∀ e ∈ liveEntries q, e = 0) (hk : 2 ≤ ANB_fifoslab_item_count q) :
    (ANB_fifoslab_pop_item q).2 = 0 ∧
    q.read_pos = q.write_pos ∧
    (ANB_fifoslab_pop_item q).1.index_read = 0 ∧
    (ANB_fifoslab_pop_item q).1.index_write = 0 ∧
    ANB_fifoslab_item_count (ANB_fifoslab_pop_item q).1 = 0 := by
  obtain ⟨hlen, hplen, hirw, hrw, hsum, hws, hsz, hzero⟩ := hwf
  have hne : q.index_read < q.index_write := by
    unfold ANB_fifoslab_item_count at hk
    omega
  have hmem : q.index.getD q.index_read 0 ∈ liveEntries q := by
    rw [liveEntries_cons hlen hne]
    exact List.mem_cons_self _ _
  have hfront0 : q.index.getD q.index_read 0 = 0 := hz _ hmem
  have hpad0 : q.pad_index.getD q.index_read 0 = 0 :=
    hzero _ hne (le_refl _) hfront0
  have hsum0 : liveSum q = 0 := List.sum_eq_zero hz
  have hrpwp : q.read_pos = q.write_pos := by omega
  rw [pop_item_nonempty hne, hfront0, hpad0]
  rw [if_pos (by omega)]
  refine ⟨rfl, hrpwp, ?_, ?_, ?_⟩ <;>
    simp [resetQueue, ANB_fifoslab_item_count]

theorem pop_item_zero_length_discards_rest_witness :
    (ANB_fifoslab_pop_item ⟨0, 0, 64, [0, 0], [0, 0], 2, 0, 64⟩).2 = 0 ∧
    (⟨0, 0, 64, [0, 0], [0, 0], 2, 0, 64⟩ : Queue).read_pos =
      (⟨0, 0, 64, [0, 0], [0, 0], 2, 0, 64⟩ : Queue).write_pos ∧
    (ANB_fifoslab_pop_item ⟨0, 0, 64, [0, 0], [0, 0], 2, 0, 64⟩).1.index_read = 0 ∧
    (ANB_fifoslab_pop_item ⟨0, 0, 64, [0, 0], [0, 0], 2, 0, 64⟩).1.index_write = 0 ∧
    ANB_fifoslab_item_count (ANB_fifoslab_pop_item ⟨0, 0, 64, [0, 0], [0, 0], 2, 0, 64⟩).1 = 0 :=
  pop_item_zero_length_discards_rest ⟨0, 0, 64, [0, 0], [0, 0], 2, 0, 64⟩
    (by decide) (by decide) (by decide)

/-- C10 (counterexample): the claim "`peek(n)` returns `NULL` if and only if
fewer than `n` bytes are live" fails at `n = 0`: on the well-formed queue
produced by `create(64)` zero bytes are requested, zero bytes are live (so
"fewer than n live" is false), and yet the C code returns `NULL` because of
its explicit `requested_len == 0` test. -/
theorem peek_zero_counterexample :
    WF (ANB_fifoslab_create 64) ∧
    ANB_fifoslab_peek (ANB_fifoslab_create 64) 0 = none ∧
    ¬((ANB_fifoslab_create 64).write_pos - (ANB_fifoslab_create 64).read_pos < 0) := by
  decide

/-- C10 (amended): `peek(q, n)` returns a view of the first `n` unread bytes
(the pointer `data + read_pos`, modelled as the offset `read_pos`) exactly
when `1 ≤ n` and at least `n` bytes are live, and returns "not found"
(`NULL`) exactly when `n = 0` or fewer than `n` bytes are live; the call
never mutates the queue (it is modelled as a pure function of the state). -/
theorem peek_view_iff_amended (q : Queue) (n : Nat) :
    (ANB_fifoslab_peek q n = some q.read_pos ↔
      1 ≤ n ∧ n ≤ q.write_pos - q.read_pos) ∧
    (ANB_fifoslab_peek q n = none ↔
      n = 0 ∨ q.write_pos - q.read_pos < n) := by
  unfold ANB_fifoslab_peek
  by_cases h : n = 0 ∨ n > q.write_pos - q.read_pos
  · rw [if_pos h]
    constructor
    · simp
      omega
    · simp
      omega
  · rw [if_neg h]
    constructor
    · simp
      omega
    · simp
      omega

theorem peek_view_iff_amended_witness :
    (ANB_fifoslab_peek ⟨32, 0, 64, [16, 16], [11, 10], 2, 0, 64⟩ 20 =
        some (⟨32, 0, 64, [16, 16], [11, 10], 2, 0, 64⟩ : Queue).read_pos ↔
      1 ≤ 20 ∧ 20 ≤ (⟨32, 0, 64, [16, 16], [11, 10], 2, 0, 64⟩ : Queue).write_pos -
        (⟨32, 0, 64, [16, 16], [11, 10], 2, 0, 64⟩ : Queue).read_pos) ∧
    (ANB_fifoslab_peek ⟨32, 0, 64, [16, 16], [11, 10], 2, 0, 64⟩ 20 = none ↔
      20 = 0 ∨ (⟨32, 0, 64, [16, 16], [11, 10], 2, 0, 64⟩ : Queue).write_pos -
        (⟨32, 0, 64, [16, 16], [11, 10], 2, 0, 64⟩ : Queue).read_pos < 20) :=
  peek_view_iff_amended ⟨32, 0, 64, [16, 16], [11, 10], 2, 0, 64⟩ 20

/-- Cumulative effect of a successful sequence of pushes on the queue
state. -/
theorem pushList_fields : ∀ (ls : List Nat) (q0 q : Queue),
    pushList q0 ls = some q →
    q.index = q0.index ++ ls.map ANB_FS_ALIGN_UP ∧
    q.pad_index = q0.pad_index ++ ls.map (fun l => ANB_FS_ALIGN_UP l - l) ∧
    q.index_read = q0.index_read ∧
    q.read_pos = q0.read_pos ∧
    q.index_write = q0.index_write + ls.length ∧
    q.write_pos = q0.write_pos + (ls.map ANB_FS_ALIGN_UP).sum := by
  intro ls
  induction ls with
  | nil =>
    intro q0 q h
    unfold pushList at h
    simp only [Option.some.injEq] at h
    subst h
    simp
  | cons l ls ih =>
    intro q0 q h
    unfold pushList at h
    rcases hp : ANB_fifoslab_push_item q0 l with _ | q1
    · rw [hp] at h
      simp at h
    · rw [hp] at h
      obtain ⟨f1, f2, f3, f4, f5, f6⟩ := ih q1 q h
      obtain ⟨g1, g2, g3, g4, g5, g6, -, -⟩ := push_item_some hp
      refine ⟨?_, ?_, ?_, ?_, ?_, ?_⟩
      · rw [f1, g3]
        simp
      · rw [f2, g4]
        simp
      · rw [f3, g6]
      · rw [f4, g2]
      · rw [f5, g5]
        simp
        omega
      · rw [f6, g1]
        simp
        omega

/-- C1: after any non-empty sequence of pushes onto a fresh queue,
`peek_item(i)` reports the `i`-th item's original push length
(`aligned_len − pad`, not the aligned footprint), and `pop_item()` returns
the original length of the item it retires while advancing `read_pos` by
that item's `aligned_len` and `index_read` by `1` (with the documented
drain reset to zero cursors taking over when that pop consumes the last
live bytes). -/
theorem peek_pop_report_original_length (c : Nat) (_hc : 1 ≤ c) (ls : List Nat)
    (q : Queue) (hpush : pushList (ANB_fifoslab_create c) ls = some q)
    (hne : ls ≠ []) :
    (∀ (i : Nat) (hi : i < ls.length),
        (ANB_fifoslab_peek_item q i).map Prod.snd = some ls[i]) ∧
    (ANB_fifoslab_pop_item q).2 = ls.head hne ∧
    (q.read_pos + ANB_FS_ALIGN_UP (ls.head hne) = q.write_pos →
        (ANB_fifoslab_pop_item q).1.read_pos = 0 ∧
        (ANB_fifoslab_pop_item q).1.write_pos = 0 ∧
        (ANB_fifoslab_pop_item q).1.index_read = 0 ∧
        (ANB_fifoslab_pop_item q).1.index_write = 0) ∧
    (q.read_pos + ANB_FS_ALIGN_UP (ls.head hne) ≠ q.write_pos →
        (ANB_fifoslab_pop_item q).1.read_pos =
          q.read_pos + ANB_FS_ALIGN_UP (ls.head hne) ∧
        (ANB_fifoslab_pop_item q).1.index_read = q.index_read + 1 ∧
        (ANB_fifoslab_pop_item q).1.write_pos = q.write_pos ∧
        (ANB_fifoslab_pop_item q).1.index_write = q.index_write) := by
  obtain ⟨f1, f2, f3, f4, f5, f6⟩ := pushList_fields ls (ANB_fifoslab_create c) q hpush
  unfold ANB_fifoslab_create at f1 f2 f3 f4 f5 f6
  dsimp only at f1 f2 f3 f4 f5 f6
  simp only [List.nil_append] at f1 f2
  simp only [Nat.zero_add] at f5 f6
  have hlpos : 0 < ls.length := List.length_pos.mpr hne
  have hgetidx : ∀ (i : Nat) (hi : i < ls.length),
      q.index.getD i 0 = ANB_FS_ALIGN_UP ls[i] := by
    intro i hi
    rw [f1, List.getD_eq_getElem _ _ (by simpa using hi), List.getElem_map]
  have hgetpad : ∀ (i : Nat) (hi : i < ls.length),
      q.pad_index.getD i 0 = ANB_FS_ALIGN_UP ls[i] - ls[i] := by
    intro i hi
    rw [f2, List.getD_eq_getElem _ _ (by simpa using hi), List.getElem_map]
  have hhead : ls[0] = ls.head hne := by
    rw [List.getElem_zero]
  have hfront : q.index.getD q.index_read 0 = ANB_FS_ALIGN_UP (ls.head hne) := by
    rw [f3, hgetidx 0 hlpos, hhead]
  have hfrontpad : q.pad_index.getD q.index_read 0 =
      ANB_FS_ALIGN_UP (ls.head hne) - ls.head hne := by
    rw [f3, hgetpad 0 hlpos, hhead]
  have hne2 : q.index_read < q.index_write := by omega
  refine ⟨?_, ?_, ?_, ?_⟩
  · intro i hi
    unfold ANB_fifoslab_peek_item
    rw [if_neg (by omega : ¬i ≥ q.index_write - q.index_read)]
    have habs : q.index_read + i = i := by omega
    rw [habs]
    dsimp only
    rw [hgetidx i hi, hgetpad i hi]
    simp [ANB_FS_ALIGN_UP_sub_pad]
  · rw [pop_item_nonempty hne2, hfront, hfrontpad]
    exact ANB_FS_ALIGN_UP_sub_pad _
  · intro hdrain
    rw [pop_item_nonempty hne2, hfront]
    rw [if_pos hdrain]
    simp [resetQueue]
  · intro hdrain
    rw [pop_item_nonempty hne2, hfront]
    rw [if_neg hdrain]
    exact ⟨rfl, rfl, rfl, rfl⟩

theorem peek_pop_report_original_length_witness :
    (∀ (i : Nat) (hi : i < [5, 6].length),
        (ANB_fifoslab_peek_item
            ⟨32, 0, 64, [16, 16], [11, 10], 2, 0, 64⟩ i).map Prod.snd =
          some [5, 6][i]) ∧
    (ANB_fifoslab_pop_item ⟨32, 0, 64, [16, 16], [11, 10], 2, 0, 64⟩).2 =
      [5, 6].head (by decide) ∧
    ((⟨32, 0, 64, [16, 16], [11, 10], 2, 0, 64⟩ : Queue).read_pos +
        ANB_FS_ALIGN_UP ([5, 6].head (by decide)) =
        (⟨32, 0, 64, [16, 16], [11, 10], 2, 0, 64⟩ : Queue).write_pos →
        (ANB_fifoslab_pop_item ⟨32, 0, 64, [16, 16], [11, 10], 2, 0, 64⟩).1.read_pos = 0 ∧
        (ANB_fifoslab_pop_item ⟨32, 0, 64, [16, 16], [11, 10], 2, 0, 64⟩).1.write_pos = 0 ∧
        (ANB_fifoslab_pop_item ⟨32, 0, 64, [16, 16], [11, 10], 2, 0, 64⟩).1.index_read = 0 ∧
        (ANB_fifoslab_pop_item ⟨32, 0, 64, [16, 16], [11, 10], 2, 0, 64⟩).1.index_write = 0) ∧
    ((⟨32, 0, 64, [16, 16], [11, 10], 2, 0, 64⟩ : Queue).read_pos +
        ANB_FS_ALIGN_UP ([5, 6].head (by decide)) ≠
        (⟨32, 0, 64, [16, 16], [11, 10], 2, 0, 64⟩ : Queue).write_pos →
        (ANB_fifoslab_pop_item ⟨32, 0, 64, [16, 16], [11, 10], 2, 0, 64⟩).1.read_pos =
          (⟨32, 0, 64, [16, 16], [11, 10], 2, 0, 64⟩ : Queue).read_pos +
            ANB_FS_ALIGN_UP ([5, 6].head (by decide)) ∧
        (ANB_fifoslab_pop_item ⟨32, 0, 64, [16, 16], [11, 10], 2, 0, 64⟩).1.index_read =
          (⟨32, 0, 64, [16, 16], [11, 10], 2, 0, 64⟩ : Queue).index_read + 1 ∧
        (ANB_fifoslab_pop_item ⟨32, 0, 64, [16, 16], [11, 10], 2, 0, 64⟩).1.write_pos =
          (⟨32, 0, 64, [16, 16], [11, 10], 2, 0, 64⟩ : Queue).write_pos ∧
        (ANB_fifoslab_pop_item ⟨32, 0, 64, [16, 16], [11, 10], 2, 0, 64⟩).1.index_write =
          (⟨32, 0, 64, [16, 16], [11, 10], 2, 0, 64⟩ : Queue).index_write) :=
  peek_pop_report_original_length 64 (by decide) [5, 6]
    ⟨32, 0, 64, [16, 16], [11, 10], 2, 0, 64⟩ (by decide) (by decide)

/-- After `k` steps from the zero-initialized iterator on an unmutated
queue, the iterator holds item offset `k` and the byte offset equal to the
sum of the first `k` live aligned lengths. -/
theorem iterRun_spec (q : Queue) (hlen : q.index.length = q.index_write) :
    ∀ k, k ≤ ANB_fifoslab_item_count q →
      iterRun q k = ⟨k, ((liveEntries q).take k).sum⟩ := by
  intro k
  induction k with
  | zero =>
    intro _
    simp [iterRun]
  | succ k ih =>
    intro hk
    have hklt : q.index_read + k < q.index_write := by
      unfold ANB_fifoslab_item_count at hk
      omega
    have hlive : (liveEntries q).length = q.index_write - q.index_read := by
      unfold liveEntries
      simp [hlen]
    have hkl : k < (liveEntries q).length := by
      unfold ANB_fifoslab_item_count at hk
      omega
    unfold iterRun
    rw [ih (by omega)]
    unfold ANB_fifoslab_peek_item_iter
    rw [if_neg (by dsimp only; omega)]
    dsimp only
    have hsumtake : ((liveEntries q).take (k + 1)).sum =
        ((liveEntries q).take k).sum + (liveEntries q)[k] := List.sum_take_succ _ _ hkl
    have hgd : q.index.getD (q.index_read + k) 0 = (liveEntries q)[k] := by
      unfold liveEntries
      rw [List.getD_eq_getElem _ _ (by omega)]
      exact (List.getElem_drop _).symm
    rw [hgd, hsumtake]

/-- C3: on an unmutated well-formed queue with `N` live items, the `k`-th
step of the zero-initialized O(1) iterator (for every `k < N`) yields
exactly the same (view offset, reported length) pair as `peek_item(k)`, and
the `(N+1)`-th step (the step after the last item) reports exhaustion
(`NULL`). -/
theorem iterator_matches_indexed_peek (q : Queue) (hwf : WF q) :
    (∀ k, k < ANB_fifoslab_item_count q →
        (ANB_fifoslab_peek_item_iter q (iterRun q k)).map (fun r => (r.1, r.2.1)) =
          ANB_fifoslab_peek_item q k) ∧
    ANB_fifoslab_peek_item_iter q (iterRun q (ANB_fifoslab_item_count q)) = none := by
  obtain ⟨hlen, hplen, hirw, hrw, hsum, hws, hsz, hzero⟩ := hwf
  constructor
  · intro k hk
    rw [iterRun_spec q hlen k (by omega)]
    unfold ANB_fifoslab_peek_item_iter ANB_fifoslab_peek_item
    unfold ANB_fifoslab_item_count at hk
    rw [if_neg (by dsimp only; omega), if_neg (by omega)]
    dsimp only
    rfl
  · rw [iterRun_spec q hlen _ (le_refl _)]
    unfold ANB_fifoslab_peek_item_iter ANB_fifoslab_item_count
    rw [if_pos (by dsimp only; omega)]

theorem iterator_matches_indexed_peek_witness :
    (∀ k, k < ANB_fifoslab_item_count ⟨32, 0, 64, [16, 16], [11, 10], 2, 0, 64⟩ →
        (ANB_fifoslab_peek_item_iter ⟨32, 0, 64, [16, 16], [11, 10], 2, 0, 64⟩
            (iterRun ⟨32, 0, 64, [16, 16], [11, 10], 2, 0, 64⟩ k)).map
            (fun r => (r.1, r.2.1)) =
          ANB_fifoslab_peek_item ⟨32, 0, 64, [16, 16], [11, 10], 2, 0, 64⟩ k) ∧
    ANB_fifoslab_peek_item_iter ⟨32, 0, 64, [16, 16], [11, 10], 2, 0, 64⟩
      (iterRun ⟨32, 0, 64, [16, 16], [11, 10], 2, 0, 64⟩
        (ANB_fifoslab_item_count ⟨32, 0, 64, [16, 16], [11, 10], 2, 0, 64⟩)) = none :=
  iterator_matches_indexed_peek ⟨32, 0, 64, [16, 16], [11, 10], 2, 0, 64⟩ (by decide)

/-- C5: on a well-formed queue holding at least `n` live bytes, `pop(n)`
returns `n` and consumes exactly `n` bytes from the front: a zero request
leaves the queue untouched; a positive request that does not drain the
buffer advances `read_pos` by exactly `n`, retires (advances `index_read`
past) exactly the index entries fully covered by `n`, and when `n` ends
strictly inside an entry that entry's stored `aligned_len` is reduced in
place by the consumed remainder instead of the entry being retired
(`consumeEntries`/`retireCount` state precisely this greedy behaviour); a
positive request that consumes the last live byte triggers the documented
full cursor reset. -/
theorem pop_consumes_exactly (q : Queue) (n : Nat) (hwf : WF q)
    (hn : n ≤ q.write_pos - q.read_pos) :
    (ANB_fifoslab_pop q n).2 = n ∧
    (n = 0 → (ANB_fifoslab_pop q n).1 = q) ∧
    (0 < n → q.read_pos + n ≠ q.write_pos →
        (ANB_fifoslab_pop q n).1.read_pos = q.read_pos + n ∧
        (ANB_fifoslab_pop q n).1.write_pos = q.write_pos ∧
        liveEntries (ANB_fifoslab_pop q n).1 = consumeEntries n (liveEntries q) ∧
        (ANB_fifoslab_pop q n).1.index_read =
          q.index_read + retireCount n (liveEntries q)) ∧
    (0 < n → q.read_pos + n = q.write_pos →
        (ANB_fifoslab_pop q n).1.read_pos = 0 ∧
        (ANB_fifoslab_pop q n).1.write_pos = 0 ∧
        (ANB_fifoslab_pop q n).1.index_read = 0 ∧
        (ANB_fifoslab_pop q n).1.index_write = 0) := by
  obtain ⟨hlen, hplen, hirw, hrw, hsum, hws, hsz, hzero⟩ := hwf
  obtain ⟨l1, l2, l3, l4, l5, l6⟩ :=
    popIndexLoop_spec n q.index_read q.index_write q.index hlen hirw
  refine ⟨?_, ?_, ?_, ?_⟩
  · rcases Nat.eq_zero_or_pos n with hn0 | hn0
    · subst hn0
      rw [pop_invalid (Or.inl rfl)]
    · rw [pop_valid hn0 hn]
  · intro hn0
    subst hn0
    rw [pop_invalid (Or.inl rfl)]
  · intro hn0 hdrain
    rw [pop_valid hn0 hn]
    rw [if_neg hdrain]
    refine ⟨rfl, rfl, ?_, l5⟩
    unfold liveEntries
    dsimp only
    rw [l4]
  · intro hn0 hdrain
    rw [pop_valid hn0 hn]
    rw [if_pos hdrain]
    simp [resetQueue]

theorem pop_consumes_exactly_witness :
    (ANB_fifoslab_pop ⟨32, 0, 64, [16, 16], [11, 10], 2, 0, 64⟩ 20).2 = 20 ∧
    (20 = 0 → (ANB_fifoslab_pop ⟨32, 0, 64, [16, 16], [11, 10], 2, 0, 64⟩ 20).1 =
      ⟨32, 0, 64, [16, 16], [11, 10], 2, 0, 64⟩) ∧
    (0 < 20 →
        (⟨32, 0, 64, [16, 16], [11, 10], 2, 0, 64⟩ : Queue).read_pos + 20 ≠
          (⟨32, 0, 64, [16, 16], [11, 10], 2, 0, 64⟩ : Queue).write_pos →
        (ANB_fifoslab_pop ⟨32, 0, 64, [16, 16], [11, 10], 2, 0, 64⟩ 20).1.read_pos =
          (⟨32, 0, 64, [16, 16], [11, 10], 2, 0, 64⟩ : Queue).read_pos + 20 ∧
        (ANB_fifoslab_pop ⟨32, 0, 64, [16, 16], [11, 10], 2, 0, 64⟩ 20).1.write_pos =
          (⟨32, 0, 64, [16, 16], [11, 10], 2, 0, 64⟩ : Queue).write_pos ∧
        liveEntries (ANB_fifoslab_pop ⟨32, 0, 64, [16, 16], [11, 10], 2, 0, 64⟩ 20).1 =
          consumeEntries 20 (liveEntries ⟨32, 0, 64, [16, 16], [11, 10], 2, 0, 64⟩) ∧
        (ANB_fifoslab_pop ⟨32, 0, 64, [16, 16], [11, 10], 2, 0, 64⟩ 20).1.index_read =
          (⟨32, 0, 64, [16, 16], [11, 10], 2, 0, 64⟩ : Queue).index_read +
            retireCount 20 (liveEntries ⟨32, 0, 64, [16, 16], [11, 10], 2, 0, 64⟩)) ∧
    (0 < 20 →
        (⟨32, 0, 64, [16, 16], [11, 10], 2, 0, 64⟩ : Queue).read_pos + 20 =
          (⟨32, 0, 64, [16, 16], [11, 10], 2, 0, 64⟩ : Queue).write_pos →
        (ANB_fifoslab_pop ⟨32, 0, 64, [16, 16], [11, 10], 2, 0, 64⟩ 20).1.read_pos = 0 ∧
        (ANB_fifoslab_pop ⟨32, 0, 64, [16, 16], [11, 10], 2, 0, 64⟩ 20).1.write_pos = 0 ∧
        (ANB_fifoslab_pop ⟨32, 0, 64, [16, 16], [11, 10], 2, 0, 64⟩ 20).1.index_read = 0 ∧
        (ANB_fifoslab_pop ⟨32, 0, 64, [16, 16], [11, 10], 2, 0, 64⟩ 20).1.index_write = 0) :=
  pop_consumes_exactly ⟨32, 0, 64, [16, 16], [11, 10], 2, 0, 64⟩ 20 (by decide) (by decide)

end ANB
